import Mathlib

/-!
Shallow embedding of the spreadsheet-import reconciliation code of the
Warehouse_Management repository (Next.js/TypeScript) and proofs about it.

The embedded functions are translated from:
  * the warehouses page (`tolerant` header normalizer, `mapInventoryRow`,
    the localStorage staging merge in `handleFile`),
  * the spare-parts page (`findHeaderForField`, `camelToSnake`,
    `snakeToCamel`, `tryInsertWithMissingColumnRecovery`,
    `doImportSelectedSheet`'s batch loop),
  * the inventory page (`safeNum`, `uuidLike`, `importSelectedSheet`'s
    upsert loop), and
  * the upload API route (`POST`).

JavaScript strings are modelled as Lean `String`s; `toLowerCase` /
`toUpperCase` are modelled on the ASCII range (`Char.toLower` /
`Char.toUpper`), numbers as exact rationals `ℚ` (no floating-point
rounding or overflow), and network writes as oracle functions passed in
as parameters (one outcome per call, indexed by call position).
-/

namespace WMS

/-- Code points of the JavaScript `\s` character class (the set used by
`String.prototype.trim` and the `/\s/` regexes in the import code). -/
def jsWsCodes : List Nat :=
  [9, 10, 11, 12, 13, 32, 160, 5760, 8192, 8193, 8194, 8195, 8196, 8197,
   8198, 8199, 8200, 8201, 8202, 8232, 8233, 8239, 8287, 12288, 65279]

/-- Membership in the JS `\s` class. -/
def isJsWs (c : Char) : Bool := jsWsCodes.contains c.toNat

/-- JS `String.prototype.toLowerCase`, modelled on the ASCII range
(`Char.toLower` lowers exactly `A`–`Z`). -/
def jsLower (s : String) : String := ⟨s.data.map Char.toLower⟩

/-- JS `String.prototype.trim` on a character list: drop `\s` characters
from both ends. -/
def jsTrimList (l : List Char) : List Char :=
  ((l.dropWhile isJsWs).reverse.dropWhile isJsWs).reverse

/-- JS `String.prototype.trim`. -/
def jsTrim (s : String) : String := ⟨jsTrimList s.data⟩

/-- The character set kept by `replace(/[^a-z0-9]/g, '')`:
lower-case ASCII letters and digits. -/
def isLowerAlnum (c : Char) : Bool :=
  (97 ≤ c.toNat && c.toNat ≤ 122) || (48 ≤ c.toNat && c.toNat ≤ 57)

/-- The header normalizer `tolerant` from the warehouses page:
`k.toLowerCase().replace(/\s+/g, '').replace(/[^a-z0-9]/g, '')`. -/
def tolerant (s : String) : String :=
  ⟨((s.data.map Char.toLower).filter (fun c => !isJsWs c)).filter isLowerAlnum⟩

/-! ### Field mapper: `findHeaderForField` from the spare-parts page -/

/-- Does the pattern occur at the head of the list? (helper for
JS `String.prototype.includes`). -/
def subAt : List Char → List Char → Bool
  | [], _ => true
  | _ :: _, [] => false
  | p :: ps, c :: cs => p == c && subAt ps cs

/-- Does the pattern occur anywhere in the list? -/
def hasSub (pat : List Char) : List Char → Bool
  | [] => pat.isEmpty
  | c :: cs => subAt pat (c :: cs) || hasSub pat cs

/-- JS `s.includes(frag)`: substring containment. -/
def jsIncludes (s frag : String) : Bool := hasSub frag.data s.data

/-- JS `Array.prototype.findIndex`-style first index satisfying a
predicate (also used to model `Array.prototype.indexOf`). -/
def jsFindIndex (p : String → Bool) : List String → Option Nat
  | [] => none
  | y :: ys => if p y then some 0 else (jsFindIndex p ys).map (· + 1)

/-- JS `arr.indexOf(x)` as an `Option Nat` (none for `-1`). -/
def jsIndexOf (x : String) (l : List String) : Option Nat :=
  jsFindIndex (fun y => y = x) l

/-- The `expectedHeaders` table from the spare-parts page. -/
def expectedHeaders : List (String × List String) :=
  [("part_number", ["part_number", "part no", "partno", "part no.", "sku", "partno."]),
   ("name", ["name", "part name", "item_name", "item name"]),
   ("description", ["description", "desc", "details"]),
   ("category", ["category", "cat"]),
   ("compatibility", ["compatibility", "compatible", "fits"]),
   ("reorder_threshold", ["reorder_level", "reorder_threshold", "reorder",
                          "reorder level", "reorder_threshold"])]

/-- JS `(h || '').toString().toLowerCase().trim()` applied to a header. -/
def lowerTrim (h : String) : String := jsTrim (jsLower h)

/-- JS `field.replace(/_/g, ' ')`. -/
def underscoreToSpace (s : String) : String :=
  ⟨s.data.map (fun c => if c = '_' then ' ' else c)⟩

/-- The candidate loop of `findHeaderForField`: for each candidate in
order, search `cand.toLowerCase()` in the lower-cased-and-trimmed header
list; on a hit return the original header at that index. -/
def findCandidateHeader (headers lower : List String) :
    List String → Option String
  | [] => none
  | cand :: rest =>
    match jsIndexOf (jsLower cand) lower with
    | some i => some (headers.getD i "")
    | none => findCandidateHeader headers lower rest

/-- The function `findHeaderForField` from the spare-parts page: candidate-alias match,
then raw exact match of the field name, then substring match of the field
name with underscores replaced by spaces, else `null`. -/
def findHeaderForField (headers : List String) (field : String) :
    Option String :=
  let candidates := (expectedHeaders.lookup field).getD []
  let lower := headers.map lowerTrim
  match findCandidateHeader headers lower candidates with
  | some h => some h
  | none =>
    if headers.contains field then some field
    else
      match jsFindIndex (fun lh => jsIncludes lh (underscoreToSpace field)) lower with
      | some i => some (headers.getD i "")
      | none => none

/-! ### Row coercer: numeric coercion (`safeNum` from the inventory page
and the reorder-threshold coercion from the spare-parts page) -/

/-- Characters kept by `replace(/[^0-9.\-]/g, '')`: digits, `.`, `-`. -/
def isNumericKeep (c : Char) : Bool :=
  (48 ≤ c.toNat && c.toNat ≤ 57) || c == '.' || c == '-'

/-- JS `String(v).replace(/[^0-9.\-]/g, '')`. -/
def stripNonNumeric (s : String) : String := ⟨s.data.filter isNumericKeep⟩

/-- ASCII digit test. -/
def isDigitCh (c : Char) : Bool := 48 ≤ c.toNat && c.toNat ≤ 57

/-- Decimal value of a digit run. -/
def digitsToNat (l : List Char) : Nat :=
  l.foldl (fun a c => a * 10 + (c.toNat - 48)) 0

/-- JS `Number()` restricted to strings over the alphabet `[0-9.\-]` —
every string the import code passes to it has first been stripped to
this set. `none` models `NaN`. The empty string parses to `0` (JS
`Number('') === 0`). Values are exact rationals: the double-precision
rounding (and overflow to `Infinity` of absurdly long digit runs) is
not modelled. -/
def jsNumberNumeric (s : String) : Option ℚ :=
  match s.data with
  | [] => some 0
  | l =>
    let signBody : Bool × List Char :=
      match l with
      | '-' :: rest => (true, rest)
      | _ => (false, l)
    let ip := signBody.2.takeWhile isDigitCh
    let rest := signBody.2.dropWhile isDigitCh
    let mag : Option ℚ :=
      match rest with
      | [] => if ip.isEmpty then none else some (digitsToNat ip)
      | '.' :: frac =>
        if frac.all isDigitCh && !(ip.isEmpty && frac.isEmpty) then
          some ((digitsToNat ip : ℚ) +
            (digitsToNat frac : ℚ) / (10 : ℚ) ^ frac.length)
        else none
      | _ => none
    match mag with
    | some m => some (if signBody.1 then -m else m)
    | none => none

/-- The helper `safeNum` from the inventory page:
`Number(String(v ?? '').replace(/[^0-9.\-]/g, ''))`, then
`Number.isFinite(n) ? n : 0`. The cell is modelled after the JS
`String(...)` conversion; `none` is a null/undefined cell. -/
def safeNum (v : Option String) : ℚ :=
  (jsNumberNumeric (stripNonNumeric (v.getD ""))).getD 0

/-- The `reorder_threshold` coercion inside the spare-parts
`doImportSelectedSheet`: `v === null || v === '' ? null :
(Number.isFinite(n) ? n : null)` with
`n = Number(String(v).replace(/[^0-9.-]/g, ''))`. -/
def sparePartsReorderCoerce (v : Option String) : Option ℚ :=
  match v with
  | none => none
  | some s => if s = "" then none else jsNumberNumeric (stripNonNumeric s)

/-! ### Schema-drift recovery: `tryInsertWithMissingColumnRecovery`
from the spare-parts page -/

/-- The helper `camelToSnake`: `s.replace(/[A-Z]/g, c => '_' + c.toLowerCase())`. -/
def camelToSnake (s : String) : String :=
  ⟨s.data.flatMap (fun c =>
    if 65 ≤ c.toNat && c.toNat ≤ 90 then ['_', Char.toLower c] else [c])⟩

/-- Recursion for `snakeToCamel`: the JS global regex
`/_([a-z])/g` scans left to right over non-overlapping matches. -/
def snakeToCamelAux : List Char → List Char
  | [] => []
  | '_' :: c :: rest =>
    if 97 ≤ c.toNat && c.toNat ≤ 122 then
      Char.toUpper c :: snakeToCamelAux rest
    else '_' :: snakeToCamelAux (c :: rest)
  | c :: rest => c :: snakeToCamelAux rest
termination_by l => l.length

/-- The helper `snakeToCamel`: `s.replace(/_([a-z])/g, (_, g) => g.toUpperCase())`. -/
def snakeToCamel (s : String) : String := ⟨snakeToCamelAux s.data⟩

/-- Consume a case-insensitive literal (the `/i` flag: lower the input
character, compare with the lower-case pattern character). -/
def eatLitCI : List Char → List Char → Option (List Char)
  | [], l => some l
  | _ :: _, [] => none
  | p :: ps, x :: xs => if Char.toLower x = p then eatLitCI ps xs else none

/-- Consume one-or-more `\s` characters (the regex `\s+`, greedy). -/
def eatWs1 : List Char → Option (List Char)
  | [] => none
  | c :: cs => if isJsWs c then some (cs.dropWhile isJsWs) else none

/-- Attempt `column\s+"?([^"\s]+)"?\s+of\s+relation` at the current
position, returning capture group 1. Greedy matching without
backtracking is equivalent here: the capture's character class excludes
`"` and whitespace, so no shorter capture can satisfy the following
`"?\s+` when the maximal one does not. -/
def tryColumnMatchAt (l : List Char) : Option String :=
  match eatLitCI "column".data l with
  | none => none
  | some l1 =>
    match eatWs1 l1 with
    | none => none
    | some l2 =>
      let l3 := match l2 with
        | '"' :: r => r
        | _ => l2
      let cap := l3.takeWhile (fun c => !(c == '"' || isJsWs c))
      if cap.isEmpty then none
      else
        let l4 := l3.dropWhile (fun c => !(c == '"' || isJsWs c))
        let l5 := match l4 with
          | '"' :: r => r
          | _ => l4
        match eatWs1 l5 with
        | none => none
        | some l6 =>
          match eatLitCI "of".data l6 with
          | none => none
          | some l7 =>
            match eatWs1 l7 with
            | none => none
            | some l8 =>
              match eatLitCI "relation".data l8 with
              | none => none
              | some _ => some ⟨cap⟩

/-- First match over all start positions (JS `String.prototype.match`
without the `g` flag returns the leftmost match). -/
def scanColumnMatch : List Char → Option String
  | [] => none
  | l@(_ :: rest) =>
    match tryColumnMatchAt l with
    | some s => some s
    | none => scanColumnMatch rest

/-- Model of `msg.match(/column\s+"?([^"\s]+)"?\s+of\s+relation/i)` — capture
group 1 of the first match, or `none`. -/
def extractMissingColumn (msg : String) : Option String :=
  scanColumnMatch msg.data

/-- A row payload as sent to the database client: an association list of
column name to cell value (string cells suffice for this routine — the
recovery only deletes keys, never reads values). -/
abbrev SPRow := List (String × String)

/-- Delete the matched column and its camel/snake-case variants from a
copy of one row: `delete copy[missingCol]; delete
copy[camelToSnake(missingCol)]; delete copy[snakeToCamel(missingCol)]`. -/
def removeMissingCol (missingCol : String) (r : SPRow) : SPRow :=
  r.filter (fun kv =>
    !(kv.1 == missingCol || kv.1 == camelToSnake missingCol ||
      kv.1 == snakeToCamel missingCol))

/-- The routine `tryInsertWithMissingColumnRecovery`, with the database modelled as
an oracle: `insert a p` is the error (`none` = success) returned by this
routine's `a`-th insert call with payload `p`. Returns the surfaced
response error together with the list of submitted payloads, in order. -/
def tryInsertWithMissingColumnRecovery
    (insert : Nat → List SPRow → Option String) (batch : List SPRow) :
    Option String × List (List SPRow) :=
  match insert 0 batch with
  | none => (none, [batch])
  | some msg =>
    match extractMissingColumn msg with
    | some missingCol =>
      let cleaned := batch.map (removeMissingCol missingCol)
      (insert 1 cleaned, [batch, cleaned])
    | none => (some msg, [batch])

/-! ### Upsert batcher: the batch loops of the two importers -/

/-- Model of `for (let i = 0; i < xs.length; i += k) xs.slice(i, i + k)`:
partition into consecutive chunks of size `k` (JS never calls this with
`k = 0`; that case returns `[]` here to keep the function total). -/
def chunksOf {α : Type} (k : Nat) (l : List α) : List (List α) :=
  if _h : l.isEmpty ∨ k = 0 then [] else l.take k :: chunksOf k (l.drop k)
termination_by l.length
decreasing_by
  simp only [List.length_drop]
  have hl : l.isEmpty = false := by
    cases he : l.isEmpty
    · rfl
    · exact absurd (Or.inl he) _h
  have hk : k ≠ 0 := fun he => _h (Or.inr he)
  have : l ≠ [] := by simpa [List.isEmpty_iff] using hl
  have := List.length_pos.mpr this
  omega

/-- The batch loop of the spare-parts `doImportSelectedSheet`
(`BATCH_SIZE = 200`): submit each chunk in order through
`tryInsertWithMissingColumnRecovery`; on a surfaced error, set the user-
visible error and `return` (halting the run). `insert i` is the
insert oracle for chunk `i`. Returns the surfaced import error (`none`
for success) and the list of chunks submitted, in order. The recursion
is sequential: chunk `i + 1` is only examined inside the success branch
of chunk `i`, mirroring the `await` in the `for` loop. -/
def sparePartsBatchLoop (insert : Nat → Nat → List SPRow → Option String) :
    Nat → List (List SPRow) → Option String × List (List SPRow)
  | _, [] => (none, [])
  | i, b :: rest =>
    match (tryInsertWithMissingColumnRecovery (insert i) b).1 with
    | some m => (some m, [b])
    | none =>
      let r := sparePartsBatchLoop insert (i + 1) rest
      (r.1, b :: r.2)

/-- The spare-parts import, from prepared payloads: chunk and run. -/
def doImportSparePartsBatches
    (insert : Nat → Nat → List SPRow → Option String)
    (toInsert : List SPRow) : Option String × List (List SPRow) :=
  sparePartsBatchLoop insert 0 (chunksOf 200 toInsert)

/-- The upsert loop of the inventory `importSelectedSheet`
(`batchSize = 300`): submit every chunk in order; a failing chunk is
neither retried nor surfaced — the loop merely skips
`upserted += chunk.length` and continues. Returns the reported
`upserted` count and the chunks submitted, in order. -/
def inventoryBatchLoop {α : Type} (upsert : Nat → List α → Option String) :
    Nat → List (List α) → Nat × List (List α)
  | _, [] => (0, [])
  | i, b :: rest =>
    let r := inventoryBatchLoop upsert (i + 1) rest
    match upsert i b with
    | none => (b.length + r.1, b :: r.2)
    | some _ => (r.1, b :: r.2)

/-- The inventory import, from prepared payloads: chunk and run. -/
def importInventoryBatches {α : Type}
    (upsert : Nat → List α → Option String) (payloads : List α) :
    Nat × List (List α) :=
  inventoryBatchLoop upsert 0 (chunksOf 300 payloads)

/-- The user-visible report of the inventory import on its non-throwing
path: `setImportMessage(\x60Imported $\x7bupserted\x7d rows from "$\x7bselectedSheet\x7d".\x60)`;
`importError` is never set by a failing batch. -/
def inventoryImportMessage {α : Type}
    (upsert : Nat → List α → Option String) (payloads : List α)
    (sheet : String) : String :=
  "Imported " ++ toString (importInventoryBatches upsert payloads).1 ++
    " rows from \"" ++ sheet ++ "\"."

/-! ### The staging merge of the warehouses-page import (`handleFile`):
`new Map`, `{ ...prev, ...it }` spread, keyed by `` `${sku}::${warehouseId || ''}` `` -/

/-- Field names of the `InventoryItem` records staged by the
warehouses-page import. -/
inductive InvField
  | sku
  | name
  | category
  | warehouseId
  | rackId
  | qty
  | reorderThreshold
  | unitPrice
deriving DecidableEq

/-- A JS value held in a record field. Numbers are exact rationals. -/
inductive JsVal
  | undef
  | null
  | str (s : String)
  | num (q : ℚ)
deriving DecidableEq

/-- A JS object over the `InventoryItem` fields: `none` means the key is
*absent* from the object, `some JsVal.undef` that it is present with
value `undefined` — the two behave differently under object spread. -/
abbrev JsObj : Type := InvField → Option JsVal

/-- Object spread `{ ...a, ...b }`: every key present in `b` — even with value
`undefined` or `null` — wins; a key absent from `b` keeps `a`'s entry. -/
def spreadMerge (a b : JsObj) : JsObj := fun f =>
  match b f with
  | some v => some v
  | none => a f

/-- Is a field value non-null in the claim's sense: present and neither
`undefined` nor `null`? -/
def isNonNull : Option JsVal → Bool
  | some (JsVal.str _) => true
  | some (JsVal.num _) => true
  | _ => false

/-- Template-literal rendering `${v}` of a field value (the import
writes only string-valued `sku`s, so the rational rendering of the
`num` case is not exercised by the code paths modelled here). -/
def jsValTmpl : Option JsVal → String
  | none => "undefined"
  | some JsVal.undef => "undefined"
  | some JsVal.null => "null"
  | some (JsVal.str s) => s
  | some (JsVal.num q) => toString q

/-- JS truthiness of a field value. -/
def jsTruthy : Option JsVal → Bool
  | some (JsVal.str s) => !(s == "")
  | some (JsVal.num q) => !(q == 0)
  | _ => false

/-- JS `v || ''` rendered into the key template. -/
def orEmptyTmpl (v : Option JsVal) : String :=
  if jsTruthy v then jsValTmpl v else ""

/-- The uniqueness key `` `${it.sku}::${it.warehouseId || ''}` ``. -/
def stagingKey (r : JsObj) : String :=
  jsValTmpl (r InvField.sku) ++ "::" ++ orEmptyTmpl (r InvField.warehouseId)

/-- JS `Map.prototype.get` (also JS object property lookup). -/
def amapGet {β : Type} (m : List (String × β)) (k : String) : Option β :=
  (m.find? (fun e => e.1 == k)).map (·.2)

/-- JS `Map.prototype.set` (also JS object property assignment):
replace the entry in place, else append. -/
def amapSet {β : Type} (m : List (String × β)) (k : String) (v : β) :
    List (String × β) :=
  match m with
  | [] => [(k, v)]
  | (k', v') :: rest =>
    if k' == k then (k, v) :: rest else (k', v') :: amapSet rest k v

/-- The inventory staging phase of `handleFile`:
`new Map(existing.map(e => [key(e), e]))`, then for each incoming `it`,
`prev = byKey.get(k); byKey.set(k, prev ? { ...prev, ...it } : it)`. -/
def stageInventory (existing incoming : List JsObj) :
    List (String × JsObj) :=
  let init := existing.foldl (fun m e => amapSet m (stagingKey e) e) []
  incoming.foldl (fun m it =>
    match amapGet m (stagingKey it) with
    | some prev => amapSet m (stagingKey it) (spreadMerge prev it)
    | none => amapSet m (stagingKey it) it) init

/-! ### C1 -/

/-- A record already staged by an earlier import run: rack `R1`, every
key present. -/
def stagedA : JsObj := fun f =>
  match f with
  | InvField.sku => some (JsVal.str "SKU-1")
  | InvField.name => some (JsVal.str "Bolt")
  | InvField.category => some (JsVal.str "Hardware")
  | InvField.warehouseId => some (JsVal.str "W1")
  | InvField.rackId => some (JsVal.str "R1")
  | InvField.qty => some (JsVal.num 3)
  | InvField.reorderThreshold => some (JsVal.num 1)
  | InvField.unitPrice => some (JsVal.num 5)

/-- An incoming record for the same key whose row lacked a rack column:
`mapInventoryRow` still emits the `rackId` key, with value `undefined`
(`(...).toString() || undefined`). -/
def incomingB : JsObj := fun f =>
  match f with
  | InvField.sku => some (JsVal.str "SKU-1")
  | InvField.name => some (JsVal.str "Bolt")
  | InvField.category => some (JsVal.str "")
  | InvField.warehouseId => some (JsVal.str "W1")
  | InvField.rackId => some JsVal.undef
  | InvField.qty => some (JsVal.num 7)
  | InvField.reorderThreshold => some (JsVal.num 0)
  | InvField.unitPrice => some (JsVal.num 5)

/-! ### Identifier fallback: `uuidLike` and the sku resolution of the
inventory importer; the upload API's required-field check -/

/-- The helper `uuidLike` from the inventory page:
`` `sku-${Date.now().toString(36)}-${Math.floor(Math.random()*1e6).toString(36)}` ``.
The timestamp and random suffix are parameters of the embedding. -/
def uuidLike (timestamp36 rand36 : String) : String :=
  "sku-" ++ timestamp36 ++ "-" ++ rand36

/-- Key normalization in the inventory importer's `importSelectedSheet`:
`for (const k of Object.keys(r)) norm[k.trim().toLowerCase()] = r[k]`. -/
def normalizeRowKeys (r : List (String × JsVal)) : List (String × JsVal) :=
  r.foldl (fun m kv => amapSet m (jsLower (jsTrim kv.1)) kv.2) []

/-- Nullish test for the `??` operator: absent key, `null`, or
`undefined`. Note the empty string is *not* nullish. -/
def isNullish : Option JsVal → Bool
  | none => true
  | some JsVal.undef => true
  | some JsVal.null => true
  | _ => false

/-- A `??`-chain: the first non-nullish value. -/
def coalesce : List (Option JsVal) → Option JsVal
  | [] => none
  | v :: rest => if isNullish v then coalesce rest else v

/-- JS `String(v)` for a field value. -/
def jsValToString : JsVal → String
  | JsVal.undef => "undefined"
  | JsVal.null => "null"
  | JsVal.str s => s
  | JsVal.num q => toString q

/-- The sku resolution of the inventory importer:
`String(norm['item_id'] ?? norm['itemid'] ?? norm['item id'] ?? uuidLike())`. -/
def resolveSku (fresh : String) (norm : List (String × JsVal)) : String :=
  match coalesce [amapGet norm "item_id", amapGet norm "itemid",
                  amapGet norm "item id"] with
  | some v => jsValToString v
  | none => fresh

/-! ### The upload API route (`POST`) -/

/-- The recognized scopes of the upload route (any other scope returns
a 400 before any row is processed). -/
inductive Scope
  | warehouses
  | inventory
  | transactions
  | spareParts
  | tasks
deriving DecidableEq

/-- One row of the upload request body, as parsed JSON. -/
abbrev ApiRow := List (String × JsVal)

/-- JS falsiness of `row.k` (absent, `undefined`, `null`, `''`, `0`). -/
def fieldFalsy (r : ApiRow) (k : String) : Bool := !(jsTruthy (amapGet r k))

/-- The database responses observed while processing one row: whether
the existence probe found a record, and the error (if any) of the
insert/update call that follows. -/
structure DbRowResp where
  existing : Bool
  writeError : Option String

/-- Outcome of one row inside `POST`'s per-row `try` block. -/
inductive RowOutcome
  | ins
  | upd
  | err (msg : String)
deriving DecidableEq

/-- The select-then-update-or-insert body shared by the `warehouses`,
`inventory` and `spare_parts` scopes. -/
def upsertStep (db : DbRowResp) : RowOutcome :=
  match db.writeError with
  | some m => RowOutcome.err m
  | none => if db.existing then RowOutcome.upd else RowOutcome.ins

/-- The insert-only body of the `transactions` and `tasks` scopes. -/
def insertOnlyStep (db : DbRowResp) : RowOutcome :=
  match db.writeError with
  | some m => RowOutcome.err m
  | none => RowOutcome.ins

/-- Per-scope processing of one row (validation, then database calls). -/
def scopeStep : Scope → DbRowResp → ApiRow → RowOutcome
  | Scope.warehouses, db, _ => upsertStep db
  | Scope.inventory, db, r =>
    if fieldFalsy r "sku" || fieldFalsy r "name" ||
        fieldFalsy r "warehouse_id" then
      RowOutcome.err "Missing required fields: sku, name, warehouse_id"
    else upsertStep db
  | Scope.transactions, db, r =>
    if fieldFalsy r "warehouse_id" || fieldFalsy r "type" ||
        fieldFalsy r "source_destination" || fieldFalsy r "qty" then
      RowOutcome.err "Missing required fields"
    else insertOnlyStep db
  | Scope.spareParts, db, _ => upsertStep db
  | Scope.tasks, db, _ => insertOnlyStep db

/-- The accumulated response of `POST`: counts and the ordered error
list (row index is 1-based; the `field` component is always
`'general'` in the source and is omitted here). -/
structure UploadTotals where
  inserted : Nat
  updated : Nat
  errors : List (Nat × String)
deriving DecidableEq

/-- The per-scope `for` loop of `POST`: each row is processed inside
its own `try`/`catch`; a caught failure appends
`{ row: i + 1, field: 'general', message }` and the loop continues
with the next row. -/
def uploadLoop (step : Nat → ApiRow → RowOutcome) :
    Nat → List ApiRow → UploadTotals
  | _, [] => ⟨0, 0, []⟩
  | i, r :: rest =>
    let res := uploadLoop step (i + 1) rest
    match step i r with
    | RowOutcome.ins => ⟨res.inserted + 1, res.updated, res.errors⟩
    | RowOutcome.upd => ⟨res.inserted, res.updated + 1, res.errors⟩
    | RowOutcome.err m => ⟨res.inserted, res.updated, (i + 1, m) :: res.errors⟩

/-- The handler `POST` for a recognized scope; `db i` is the database behaviour
observed by row `i`. -/
def uploadPost (scope : Scope) (db : Nat → DbRowResp)
    (data : List ApiRow) : UploadTotals :=
  uploadLoop (fun i r => scopeStep scope (db i) r) 0 data

/-! ### C10 -/

/-- Bool tests on row outcomes. -/
def isInsB : RowOutcome → Bool
  | RowOutcome.ins => true
  | _ => false

def isUpdB : RowOutcome → Bool
  | RowOutcome.upd => true
  | _ => false

def errOf : RowOutcome → Option String
  | RowOutcome.err m => some m
  | _ => none

/-! ### Character-level lemmas -/

theorem char_toNat_ofNat_valid (n : Nat) (h : n.isValidChar) :
    (Char.ofNat n).toNat = n := by
  rw [Char.ofNat, dif_pos h]
  simp [Char.ofNatAux, Char.toNat, UInt32.toNat]

theorem toLower_toNat (c : Char) :
    (Char.toLower c).toNat =
      if 65 ≤ c.toNat ∧ c.toNat ≤ 90 then c.toNat + 32 else c.toNat := by
  unfold Char.toLower
  split
  · next h =>
    rw [if_pos ⟨h.1, h.2⟩]
    exact char_toNat_ofNat_valid _ (Or.inl (by omega))
  · next h =>
    rw [if_neg (by exact fun hc => h ⟨hc.1, hc.2⟩)]

theorem toLower_eq_self_of_not_upper {c : Char}
    (h : ¬(65 ≤ c.toNat ∧ c.toNat ≤ 90)) : Char.toLower c = c := by
  show (if c.toNat ≥ 65 ∧ c.toNat ≤ 90 then Char.ofNat (c.toNat + 32) else c) = c
  split
  · next h' => exact absurd ⟨h'.1, h'.2⟩ h
  · rfl

theorem toLower_eq_self_of_isLowerAlnum {c : Char}
    (h : isLowerAlnum c = true) : Char.toLower c = c := by
  apply toLower_eq_self_of_not_upper
  simp [isLowerAlnum] at h
  omega

theorem toLower_eq_self_of_isJsWs {c : Char}
    (h : isJsWs c = true) : Char.toLower c = c := by
  apply toLower_eq_self_of_not_upper
  simp [isJsWs, jsWsCodes] at h
  omega

theorem not_isJsWs_of_isLowerAlnum {c : Char}
    (h : isLowerAlnum c = true) : isJsWs c = false := by
  simp [isLowerAlnum] at h
  simp [isJsWs, jsWsCodes]
  omega

theorem toLower_idem (c : Char) :
    Char.toLower (Char.toLower c) = Char.toLower c := by
  by_cases h : 65 ≤ c.toNat ∧ c.toNat ≤ 90
  · apply toLower_eq_self_of_not_upper
    rw [toLower_toNat, if_pos h]
    omega
  · rw [toLower_eq_self_of_not_upper h]
    exact toLower_eq_self_of_not_upper h

theorem isJsWs_toLower (c : Char) : isJsWs (Char.toLower c) = isJsWs c := by
  by_cases h : 65 ≤ c.toNat ∧ c.toNat ≤ 90
  · have h1 : isJsWs c = false := by
      simp [isJsWs, jsWsCodes]; omega
    have h2 : isJsWs (Char.toLower c) = false := by
      simp only [isJsWs, jsWsCodes]
      have := toLower_toNat c
      rw [if_pos h] at this
      rw [this]
      simp; omega
    rw [h1, h2]
  · rw [toLower_eq_self_of_not_upper h]

/-! ### C8: the header normalizer is idempotent, total, and produces
only `[a-z0-9]` characters -/

theorem tolerant_data (s : String) :
    (tolerant s).data =
      ((s.data.map Char.toLower).filter (fun c => !isJsWs c)).filter
        isLowerAlnum := rfl

theorem mem_tolerant_isLowerAlnum (s : String) :
    ∀ c ∈ (tolerant s).data, isLowerAlnum c = true := by
  intro c hc
  rw [tolerant_data] at hc
  exact (List.mem_filter.mp hc).2

/-- C8: for every header string `H`, `tolerant (tolerant H) = tolerant H`
(idempotence); the output of `tolerant` consists only of characters in
`[a-z0-9]`; and the empty string maps to the empty string (the function
is total — it is a pure Lean function). -/
theorem claim_C8 :
    (∀ s : String, tolerant (tolerant s) = tolerant s) ∧
    (∀ s : String, ∀ c ∈ (tolerant s).data, isLowerAlnum c = true) ∧
    tolerant "" = "" := by
  refine ⟨?_, mem_tolerant_isLowerAlnum, rfl⟩
  intro s
  have halnum := mem_tolerant_isLowerAlnum s
  have key : ∀ (l : List Char), (∀ c ∈ l, isLowerAlnum c = true) →
      ((l.map Char.toLower).filter (fun c => !isJsWs c)).filter isLowerAlnum = l := by
    intro l hl
    have hmap : l.map Char.toLower = l := by
      conv_rhs => rw [show l = l.map id by simp]
      apply List.map_congr_left
      intro c hc
      exact toLower_eq_self_of_isLowerAlnum (hl c hc)
    rw [hmap]
    have hws : l.filter (fun c => !isJsWs c) = l := by
      apply List.filter_eq_self.mpr
      intro c hc
      simp [not_isJsWs_of_isLowerAlnum (hl c hc)]
    rw [hws]
    exact List.filter_eq_self.mpr hl
  exact congrArg String.mk (key _ halnum)

/-- Witness for C8 at a concrete header: idempotence on `"Part No."`
and the character condition at `'p' ∈ tolerant "Part No." = "partno"`. -/
theorem claim_C8_witness :
    tolerant (tolerant "Part No.") = tolerant "Part No." ∧
    isLowerAlnum 'p' = true :=
  ⟨claim_C8.1 "Part No.", claim_C8.2.1 "Part No." 'p' (by decide)⟩

/-! ### Lemmas about `jsFindIndex` / `jsIndexOf` -/

theorem jsFindIndex_eq_none_iff (p : String → Bool) (l : List String) :
    jsFindIndex p l = none ↔ ∀ y ∈ l, p y = false := by
  induction l with
  | nil => simp [jsFindIndex]
  | cons y ys ih =>
    by_cases hy : p y
    · simp [jsFindIndex, hy]
    · simp only [jsFindIndex, if_neg hy, List.mem_cons]
      constructor
      · intro h z hz
        rcases hz with rfl | hz
        · exact Bool.eq_false_iff.mpr hy
        · exact (ih.mp (by
            cases h' : jsFindIndex p ys
            · rfl
            · rw [h'] at h; simp at h)) z hz
      · intro h
        have : jsFindIndex p ys = none := ih.mpr fun z hz => h z (Or.inr hz)
        rw [this]; rfl

theorem jsFindIndex_eq_some (p : String → Bool) (l : List String) (i : Nat)
    (h : jsFindIndex p l = some i) :
    i < l.length ∧ p (l.getD i "") = true := by
  induction l generalizing i with
  | nil => simp [jsFindIndex] at h
  | cons y ys ih =>
    by_cases hy : p y
    · simp [jsFindIndex, hy] at h
      subst h
      simpa using hy
    · simp only [jsFindIndex, if_neg hy] at h
      cases h' : jsFindIndex p ys with
      | none => rw [h'] at h; simp at h
      | some j =>
        rw [h'] at h
        simp at h
        obtain ⟨hlt, hp⟩ := ih j h'
        subst h
        constructor
        · simpa using Nat.succ_lt_succ hlt
        · simpa using hp

theorem jsIndexOf_eq_some (x : String) (l : List String) (i : Nat)
    (h : jsIndexOf x l = some i) : i < l.length ∧ l.getD i "" = x := by
  obtain ⟨h1, h2⟩ := jsFindIndex_eq_some _ _ _ h
  exact ⟨h1, by simpa using h2⟩

theorem jsIndexOf_ne_none_of_mem {x : String} {l : List String}
    (h : x ∈ l) : jsIndexOf x l ≠ none := by
  intro hn
  rw [jsIndexOf, jsFindIndex_eq_none_iff] at hn
  have := hn x h
  simp at this

theorem jsIndexOf_eq_none_iff (x : String) (l : List String) :
    jsIndexOf x l = none ↔ x ∉ l := by
  rw [jsIndexOf, jsFindIndex_eq_none_iff]
  constructor
  · intro h hx
    have := h x hx
    simp at this
  · intro h y hy
    simp only [decide_eq_false_iff_not]
    intro rfl'
    exact h (rfl' ▸ hy)

theorem jsFindIndex_ne_none_of_exists {p : String → Bool} {l : List String}
    (h : ∃ y ∈ l, p y = true) : jsFindIndex p l ≠ none := by
  intro hn
  rw [jsFindIndex_eq_none_iff] at hn
  obtain ⟨y, hy, hp⟩ := h
  rw [hn y hy] at hp
  exact Bool.false_ne_true hp

theorem getD_map_lowerTrim (headers : List String) (i : Nat)
    (h : i < headers.length) :
    (headers.map lowerTrim).getD i "" = lowerTrim (headers.getD i "") := by
  induction headers generalizing i with
  | nil => simp at h
  | cons y ys ih =>
    cases i with
    | zero => rfl
    | succ j =>
      simp only [List.map_cons, List.getD_cons_succ]
      exact ih j (by simpa using Nat.lt_of_succ_lt_succ h)

theorem getD_mem_of_lt {l : List String} {i : Nat} (h : i < l.length) :
    l.getD i "" ∈ l := by
  induction l generalizing i with
  | nil => simp at h
  | cons y ys ih =>
    cases i with
    | zero => simp
    | succ j =>
      simp only [List.getD_cons_succ, List.mem_cons]
      exact Or.inr (ih (by simpa using Nat.lt_of_succ_lt_succ h))

/-! ### `tolerant` is invariant under lower-casing and trimming -/

theorem filter_map_toLower_dropWhile (l : List Char) :
    ((l.dropWhile isJsWs).map Char.toLower).filter (fun c => !isJsWs c) =
      (l.map Char.toLower).filter (fun c => !isJsWs c) := by
  induction l with
  | nil => rfl
  | cons c cs ih =>
    by_cases hc : isJsWs c
    · rw [List.dropWhile_cons_of_pos (by simpa using hc)]
      rw [ih]
      simp only [List.map_cons, List.filter_cons]
      rw [if_neg (by simp [isJsWs_toLower, hc])]
    · rw [List.dropWhile_cons_of_neg (by simpa using hc)]

theorem filter_map_toLower_trim (l : List Char) :
    ((jsTrimList l).map Char.toLower).filter (fun c => !isJsWs c) =
      (l.map Char.toLower).filter (fun c => !isJsWs c) := by
  unfold jsTrimList
  rw [List.map_reverse, List.filter_reverse]
  rw [filter_map_toLower_dropWhile]
  rw [List.map_reverse, List.filter_reverse]
  rw [filter_map_toLower_dropWhile]
  simp

theorem tolerant_jsTrim (s : String) : tolerant (jsTrim s) = tolerant s := by
  apply congrArg String.mk
  simp only [tolerant, jsTrim]
  rw [filter_map_toLower_trim]

theorem tolerant_jsLower (s : String) : tolerant (jsLower s) = tolerant s := by
  apply congrArg String.mk
  simp only [tolerant, jsLower]
  rw [List.map_map]
  congr 2
  apply List.map_congr_left
  intro c _
  exact toLower_idem c

theorem tolerant_lowerTrim (s : String) : tolerant (lowerTrim s) = tolerant s := by
  rw [lowerTrim, tolerant_jsTrim, tolerant_jsLower]

/-! ### C4: an alias-bearing header set resolves to a header whose
normalized form matches a normalized alias -/

theorem findCandidateHeader_some_of_mem (headers : List String)
    (cands : List String) (c : String) (hc : c ∈ cands)
    (hmem : jsLower c ∈ headers.map lowerTrim) :
    ∃ h c', c' ∈ cands ∧ h ∈ headers ∧
      findCandidateHeader headers (headers.map lowerTrim) cands = some h ∧
      lowerTrim h = jsLower c' := by
  induction cands with
  | nil => simp at hc
  | cons c0 rest ih =>
    cases h0 : jsIndexOf (jsLower c0) (headers.map lowerTrim) with
    | some i =>
      obtain ⟨hlt, heq⟩ := jsIndexOf_eq_some _ _ _ h0
      have hlt' : i < headers.length := by simpa using hlt
      refine ⟨headers.getD i "", c0, List.mem_cons_self _ _,
        getD_mem_of_lt hlt', ?_, ?_⟩
      · simp [findCandidateHeader, h0]
      · rw [← getD_map_lowerTrim headers i hlt']
        exact heq
    | none =>
      rcases List.mem_cons.mp hc with rfl | hrest
      · exact absurd h0 (jsIndexOf_ne_none_of_mem hmem)
      · obtain ⟨h, c', hc', hhm, hfind, hlt⟩ := ih hrest
        exact ⟨h, c', List.mem_cons_of_mem _ hc', hhm, by
          simpa [findCandidateHeader, h0] using hfind, hlt⟩

theorem findCandidateHeader_eq_none_of_forall (headers lower : List String)
    (cands : List String) (hall : ∀ c ∈ cands, jsLower c ∉ lower) :
    findCandidateHeader headers lower cands = none := by
  induction cands with
  | nil => rfl
  | cons c0 rest ih =>
    have h0 : jsIndexOf (jsLower c0) lower = none :=
      (jsIndexOf_eq_none_iff _ _).mpr (hall c0 (List.mem_cons_self _ _))
    simp only [findCandidateHeader, h0]
    exact ih fun c hcr => hall c (List.mem_cons_of_mem _ hcr)

/-- C4: for every field spec `F` (row of `expectedHeaders`) and every
header set containing an alias of `F` (a header equal, after
lower-casing and trimming, to one of `F`'s candidate aliases),
`findHeaderForField` returns a header whose `tolerant`-normalized form
equals the normalized form of one of `F`'s aliases. -/
theorem claim_C4 (headers : List String) (field : String)
    (hyp : ∃ h ∈ headers, ∃ c ∈ (expectedHeaders.lookup field).getD [],
      lowerTrim h = jsLower c) :
    ∃ h', findHeaderForField headers field = some h' ∧
      tolerant h' ∈ ((expectedHeaders.lookup field).getD []).map tolerant := by
  obtain ⟨h, hh, c, hc, heq⟩ := hyp
  have hmem : jsLower c ∈ headers.map lowerTrim :=
    heq ▸ List.mem_map_of_mem lowerTrim hh
  obtain ⟨h', c', hc', hhm, hfind, hlt⟩ :=
    findCandidateHeader_some_of_mem headers _ c hc hmem
  refine ⟨h', ?_, ?_⟩
  · simp [findHeaderForField, hfind]
  · have : tolerant h' = tolerant c' := by
      rw [← tolerant_lowerTrim h', hlt, tolerant_jsLower]
    rw [this]
    exact List.mem_map_of_mem tolerant hc'

/-- Witness for C4 at a concrete input: headers `["Part No"]`, field
`part_number` (alias `"part no"` matches after lower-casing/trim). -/
theorem claim_C4_witness :
    ∃ h', findHeaderForField ["Part No"] "part_number" = some h' ∧
      tolerant h' ∈
        ((expectedHeaders.lookup "part_number").getD []).map tolerant :=
  claim_C4 ["Part No"] "part_number"
    ⟨"Part No", by decide, "part no", by decide, by decide⟩

/-! ### C7: resolution priority order, null fallback, totality -/

/-- C7: `findHeaderForField` tries, in priority order with first match
winning: (1) a candidate alias matched against the lower-cased(-and-
trimmed) headers, (2) the raw field name against the raw headers,
(3) the field name with underscores replaced by spaces as a substring of
a lower-cased header; and when no step matches it returns `none` (no
mapping) rather than an error — it is a total Lean function, so it never
throws. -/
theorem claim_C7 (headers : List String) (field : String) :
    ((∃ c ∈ (expectedHeaders.lookup field).getD [],
        jsLower c ∈ headers.map lowerTrim) →
      ∃ c ∈ (expectedHeaders.lookup field).getD [], ∃ h ∈ headers,
        findHeaderForField headers field = some h ∧
        lowerTrim h = jsLower c) ∧
    ((∀ c ∈ (expectedHeaders.lookup field).getD [],
        jsLower c ∉ headers.map lowerTrim) →
      headers.contains field = true →
      findHeaderForField headers field = some field) ∧
    ((∀ c ∈ (expectedHeaders.lookup field).getD [],
        jsLower c ∉ headers.map lowerTrim) →
      headers.contains field = false →
      (∃ lh ∈ headers.map lowerTrim,
        jsIncludes lh (underscoreToSpace field) = true) →
      ∃ h ∈ headers, findHeaderForField headers field = some h ∧
        jsIncludes (lowerTrim h) (underscoreToSpace field) = true) ∧
    ((∀ c ∈ (expectedHeaders.lookup field).getD [],
        jsLower c ∉ headers.map lowerTrim) →
      headers.contains field = false →
      (∀ lh ∈ headers.map lowerTrim,
        jsIncludes lh (underscoreToSpace field) = false) →
      findHeaderForField headers field = none) := by
  refine ⟨?_, ?_, ?_, ?_⟩
  · rintro ⟨c, hc, hmem⟩
    obtain ⟨h, c', hc', hhm, hfind, hlt⟩ :=
      findCandidateHeader_some_of_mem headers _ c hc hmem
    exact ⟨c', hc', h, hhm, by simp [findHeaderForField, hfind], hlt⟩
  · intro hall hcont
    have hmf : field ∈ headers := by simpa [List.contains] using hcont
    have hnone := findCandidateHeader_eq_none_of_forall headers
      (headers.map lowerTrim) _ hall
    simp [findHeaderForField, hnone, hmf]
  · intro hall hcont hex
    have hnmf : field ∉ headers := by simpa [List.contains] using hcont
    have hnone := findCandidateHeader_eq_none_of_forall headers
      (headers.map lowerTrim) _ hall
    cases hidx : jsFindIndex
        (fun lh => jsIncludes lh (underscoreToSpace field))
        (headers.map lowerTrim) with
    | none => exact absurd hidx (jsFindIndex_ne_none_of_exists hex)
    | some i =>
      obtain ⟨hlt, hp⟩ := jsFindIndex_eq_some _ _ _ hidx
      have hlt' : i < headers.length := by simpa using hlt
      refine ⟨headers.getD i "", getD_mem_of_lt hlt', ?_, ?_⟩
      · simp [findHeaderForField, hnone, hnmf, hidx, List.getD]
      · rw [← getD_map_lowerTrim headers i hlt']
        exact hp
  · intro hall hcont hnosub
    have hnmf : field ∉ headers := by simpa [List.contains] using hcont
    have hnone := findCandidateHeader_eq_none_of_forall headers
      (headers.map lowerTrim) _ hall
    have hidx : jsFindIndex
        (fun lh => jsIncludes lh (underscoreToSpace field))
        (headers.map lowerTrim) = none :=
      (jsFindIndex_eq_none_iff _ _).mpr hnosub
    simp [findHeaderForField, hnone, hnmf, hidx]

/-- Witness for C7 at a concrete input, through the first (alias) step:
headers `["part no"]` resolve field `part_number`. -/
theorem claim_C7_witness :
    ∃ c ∈ (expectedHeaders.lookup "part_number").getD [],
      ∃ h ∈ ["part no"],
        findHeaderForField ["part no"] "part_number" = some h ∧
        lowerTrim h = jsLower c :=
  (claim_C7 ["part no"] "part_number").1 (by decide)

/-! ### C5 -/

theorem stripNonNumeric_eq_empty {s : String}
    (h : ∀ c ∈ s.data, isNumericKeep c = false) : stripNonNumeric s = "" := by
  apply congrArg String.mk
  rw [List.filter_eq_nil_iff]
  intro c hc
  simp [h c hc]

/-- C5 counterexample: the cell value `"x"` contains no digit, `.`, or
`-` characters, yet the spare-parts reorder-threshold coercion returns
`0` — the stripped string is empty and JS `Number('') = 0` is finite —
not its declared `null` default as the claim states. -/
theorem claim_C5_counterexample :
    (∀ c ∈ ("x" : String).data, isNumericKeep c = false) ∧
    sparePartsReorderCoerce (some "x") = some 0 ∧
    sparePartsReorderCoerce (some "x") ≠ none := by
  refine ⟨by decide, by decide, by decide⟩

/-- C5 amended: for every cell value with no digit, `.`, or `-`
characters, the inventory coercer `safeNum` returns `0` (its declared
default), and the spare-parts reorder-threshold coercion returns its
declared `null` default only for the empty cell — a non-empty such cell
coerces to `0`. Null/undefined cells give `0` resp. `null`. All
coercers are total Lean functions, so they never throw. -/
theorem claim_C5_amended (s : String)
    (h : ∀ c ∈ s.data, isNumericKeep c = false) :
    safeNum (some s) = 0 ∧ safeNum none = 0 ∧
    sparePartsReorderCoerce (some s) = (if s = "" then none else some 0) ∧
    sparePartsReorderCoerce none = none := by
  have hstrip := stripNonNumeric_eq_empty h
  refine ⟨?_, rfl, ?_, rfl⟩
  · show (jsNumberNumeric (stripNonNumeric s)).getD 0 = 0
    rw [hstrip]
    rfl
  · show (if s = "" then none else jsNumberNumeric (stripNonNumeric s)) =
      (if s = "" then none else some 0)
    by_cases hs : s = ""
    · rw [if_pos hs, if_pos hs]
    · rw [if_neg hs, if_neg hs, hstrip]
      rfl

/-- Witness for C5 (amended) at the concrete cell `"abc"`. -/
theorem claim_C5_amended_witness :
    safeNum (some "abc") = 0 ∧ safeNum none = 0 ∧
    sparePartsReorderCoerce (some "abc") =
      (if ("abc" : String) = "" then none else some 0) ∧
    sparePartsReorderCoerce none = none :=
  claim_C5_amended "abc" (by decide)

/-! ### C3 -/

/-- C3 counterexample: when the one resubmission also fails, the
routine surfaces the *retry's* failure, not the original failure
unchanged. Concretely: the first insert fails with a missing-column
message for `rack_id`, the retry fails with `permission denied`, and
the surfaced error is `permission denied`. -/
theorem claim_C3_counterexample :
    (tryInsertWithMissingColumnRecovery
      (fun a _ => if a = 0 then
        some "column \"rack_id\" of relation \"spare_parts\" does not exist"
        else some "permission denied")
      [[("rack_id", "R1"), ("name", "bolt")]]).1 = some "permission denied" ∧
    (some "permission denied" : Option String) ≠
      some "column \"rack_id\" of relation \"spare_parts\" does not exist" := by
  exact ⟨by decide, by decide⟩

/-- C3 amended: on an insert failure whose message yields a column name,
the routine removes that column and its camel/snake variants from a copy
of every row and resubmits exactly once, surfacing the *resubmission's*
result (its error, if it also fails — not necessarily the original
failure); when no column name can be extracted, the original failure is
surfaced unchanged; at most two payloads are ever submitted, so a second
retry is never attempted. -/
theorem claim_C3_amended (insert : Nat → List SPRow → Option String)
    (batch : List SPRow) (msg : String) (h : insert 0 batch = some msg) :
    (∀ col, extractMissingColumn msg = some col →
      tryInsertWithMissingColumnRecovery insert batch =
        (insert 1 (batch.map (removeMissingCol col)),
         [batch, batch.map (removeMissingCol col)])) ∧
    (extractMissingColumn msg = none →
      tryInsertWithMissingColumnRecovery insert batch = (some msg, [batch])) ∧
    (tryInsertWithMissingColumnRecovery insert batch).2.length ≤ 2 := by
  have hred : tryInsertWithMissingColumnRecovery insert batch =
      (match extractMissingColumn msg with
       | some col =>
         (insert 1 (batch.map (removeMissingCol col)),
          [batch, batch.map (removeMissingCol col)])
       | none => (some msg, [batch])) := by
    unfold tryInsertWithMissingColumnRecovery
    rw [h]
  refine ⟨?_, ?_, ?_⟩
  · intro col hcol
    rw [hred, hcol]
  · intro hnone
    rw [hred, hnone]
  · rw [hred]
    cases hext : extractMissingColumn msg with
    | none => simp
    | some col => simp

/-- Witness for C3 (amended) at a concrete input: an insert that always
fails with a message from which no column name can be extracted. -/
theorem claim_C3_amended_witness :
    tryInsertWithMissingColumnRecovery (fun _ _ => some "timeout")
      [[("name", "bolt")]] = (some "timeout", [[[("name", "bolt")]]]) :=
  (claim_C3_amended (fun _ _ => some "timeout") [[("name", "bolt")]]
    "timeout" rfl).2.1 (by decide)

theorem chunksOf_nil {α : Type} (k : Nat) : chunksOf k ([] : List α) = [] := by
  rw [chunksOf]
  simp

theorem chunksOf_eq_cons {α : Type} (k : Nat) (l : List α) (hk : k ≠ 0)
    (hl : l ≠ []) :
    chunksOf k l = l.take k :: chunksOf k (l.drop k) := by
  rw [chunksOf, dif_neg]
  simp [List.isEmpty_iff, hl, hk]

theorem chunksOf_of_le {α : Type} (k : Nat) (l : List α) (hk : k ≠ 0)
    (hl : l ≠ []) (hlen : l.length ≤ k) : chunksOf k l = [l] := by
  rw [chunksOf_eq_cons k l hk hl, List.take_of_length_le hlen,
    List.drop_eq_nil_of_le hlen, chunksOf_nil]

theorem join_chunksOf {α : Type} (k : Nat) (hk : k ≠ 0) (l : List α) :
    (chunksOf k l).flatten = l := by
  by_cases h : l = []
  · subst h
    rw [chunksOf_nil]
    rfl
  · rw [chunksOf_eq_cons k l hk h, List.flatten_cons,
      join_chunksOf k hk (l.drop k), List.take_append_drop]
termination_by l.length
decreasing_by
  simp only [List.length_drop]
  have := List.length_pos.mpr h
  omega

/-! ### Loop characterization lemmas -/

theorem sparePartsBatchLoop_spec
    (insert : Nat → Nat → List SPRow → Option String) :
    ∀ (bs : List (List SPRow)) (i : Nat),
      ((sparePartsBatchLoop insert i bs).1 = none →
        (sparePartsBatchLoop insert i bs).2 = bs) ∧
      (∀ m, (sparePartsBatchLoop insert i bs).1 = some m →
        ∃ j, j < bs.length ∧
          (sparePartsBatchLoop insert i bs).2 = bs.take (j + 1) ∧
          (tryInsertWithMissingColumnRecovery (insert (i + j))
            (bs.getD j [])).1 = some m ∧
          ∀ l, l < j →
            (tryInsertWithMissingColumnRecovery (insert (i + l))
              (bs.getD l [])).1 = none) := by
  intro bs
  induction bs with
  | nil =>
    intro i
    exact ⟨fun _ => rfl, fun m hm => by simp [sparePartsBatchLoop] at hm⟩
  | cons b rest ih =>
    intro i
    cases hb : (tryInsertWithMissingColumnRecovery (insert i) b).1 with
    | some m0 =>
      have hred : sparePartsBatchLoop insert i (b :: rest) = (some m0, [b]) := by
        simp [sparePartsBatchLoop, hb]
      constructor
      · intro h0
        rw [hred] at h0
        simp at h0
      · intro m hm
        rw [hred] at hm
        simp at hm
        subst hm
        refine ⟨0, by simp, by rw [hred]; simp, ?_, ?_⟩
        · simpa using hb
        · intro l hl
          omega
    | none =>
      have hred : sparePartsBatchLoop insert i (b :: rest) =
          ((sparePartsBatchLoop insert (i + 1) rest).1,
           b :: (sparePartsBatchLoop insert (i + 1) rest).2) := by
        simp [sparePartsBatchLoop, hb]
      obtain ⟨ihnone, ihsome⟩ := ih (i + 1)
      constructor
      · intro h0
        rw [hred] at h0 ⊢
        simp only at h0
        simp [ihnone h0]
      · intro m hm
        rw [hred] at hm
        simp only at hm
        obtain ⟨j, hj, htake, hfail, hearlier⟩ := ihsome m hm
        refine ⟨j + 1, by simpa using Nat.succ_lt_succ hj, ?_, ?_, ?_⟩
        · rw [hred]
          simp only [List.take_succ_cons]
          rw [htake]
        · have : i + (j + 1) = i + 1 + j := by omega
          rw [this]
          simpa using hfail
        · intro l hl
          cases l with
          | zero => simpa using hb
          | succ l' =>
            have : i + (l' + 1) = i + 1 + l' := by omega
            rw [this]
            simpa using hearlier l' (by omega)

theorem inventoryBatchLoop_spec {α : Type}
    (upsert : Nat → List α → Option String) :
    ∀ (bs : List (List α)) (i : Nat),
      (inventoryBatchLoop upsert i bs).2 = bs ∧
      (inventoryBatchLoop upsert i bs).1 =
        ((List.range bs.length).map (fun j =>
          if upsert (i + j) (bs.getD j []) = none then
            (bs.getD j []).length else 0)).sum := by
  intro bs
  induction bs with
  | nil => intro i; exact ⟨rfl, rfl⟩
  | cons b rest ih =>
    intro i
    obtain ⟨ih2, ih1⟩ := ih (i + 1)
    have hshift :
        ((List.range rest.length).map (fun j =>
          if upsert (i + 1 + j) (rest.getD j []) = none then
            (rest.getD j []).length else 0)).sum =
        (((List.range rest.length).map (· + 1)).map (fun j =>
          if upsert (i + j) ((b :: rest).getD j []) = none then
            ((b :: rest).getD j []).length else 0)).sum := by
      rw [List.map_map]
      congr 1
      apply List.map_congr_left
      intro j _
      simp only [Function.comp]
      have : i + (j + 1) = i + 1 + j := by omega
      rw [this]
      rfl
    cases hb : upsert i b with
    | none =>
      have hred : inventoryBatchLoop upsert i (b :: rest) =
          (b.length + (inventoryBatchLoop upsert (i + 1) rest).1,
           b :: (inventoryBatchLoop upsert (i + 1) rest).2) := by
        simp [inventoryBatchLoop, hb]
      rw [hred]
      refine ⟨by simp [ih2], ?_⟩
      simp only [List.length_cons, List.range_succ_eq_map, List.map_cons,
        List.sum_cons]
      rw [← hshift, ← ih1]
      simp [hb]
    | some msg =>
      have hred : inventoryBatchLoop upsert i (b :: rest) =
          ((inventoryBatchLoop upsert (i + 1) rest).1,
           b :: (inventoryBatchLoop upsert (i + 1) rest).2) := by
        simp [inventoryBatchLoop, hb]
      rw [hred]
      refine ⟨by simp [ih2], ?_⟩
      simp only [List.length_cons, List.range_succ_eq_map, List.map_cons,
        List.sum_cons]
      rw [← hshift, ← ih1]
      simp [hb]

theorem sparePartsBatchLoop_submitted_isPre
    (insert : Nat → Nat → List SPRow → Option String) :
    ∀ (bs : List (List SPRow)) (i : Nat),
      ∃ rest, (sparePartsBatchLoop insert i bs).2 ++ rest = bs := by
  intro bs
  induction bs with
  | nil => intro i; exact ⟨[], rfl⟩
  | cons b rest ih =>
    intro i
    cases hb : (tryInsertWithMissingColumnRecovery (insert i) b).1 with
    | some m0 =>
      refine ⟨rest, ?_⟩
      simp [sparePartsBatchLoop, hb]
    | none =>
      obtain ⟨tail, htail⟩ := ih (i + 1)
      refine ⟨tail, ?_⟩
      simp only [sparePartsBatchLoop, hb]
      simpa using htail

/-! ### C2 -/

set_option maxRecDepth 16000 in
/-- C2 counterexample: in the inventory importer, a batch write failure
does *not* halt the import. With 400 rows (two chunks of 300 and 100)
and batch 0 failing, batch 1 is still submitted afterwards, the
reported count is the 100 rows of the later batch, and the import
surfaces a success-looking message with no error — the failing batch's
rows are silently dropped from the count rather than reported. -/
theorem claim_C2_counterexample :
    (importInventoryBatches
      (fun i _ => if i = 0 then some "insert failed" else none)
      (List.replicate 400 (0 : Nat))).2.length = 2 ∧
    (importInventoryBatches
      (fun i _ => if i = 0 then some "insert failed" else none)
      (List.replicate 400 (0 : Nat))).1 = 100 ∧
    inventoryImportMessage
      (fun i _ => if i = 0 then some "insert failed" else none)
      (List.replicate 400 (0 : Nat)) "Sheet1" =
      "Imported 100 rows from \"Sheet1\"." := by
  have hne : ∀ (n : Nat), n ≠ 0 → List.replicate n (0 : Nat) ≠ [] := by
    intro n hn h
    have := congrArg List.length h
    rw [List.length_replicate] at this
    exact hn this
  have hch : chunksOf 300 (List.replicate 400 (0 : Nat)) =
      [List.replicate 300 0, List.replicate 100 0] := by
    rw [chunksOf_eq_cons 300 _ (by omega) (hne 400 (by omega))]
    rw [List.take_replicate, List.drop_replicate]
    norm_num
    rw [chunksOf_of_le 300 _ (by omega) (hne 100 (by omega))
      (by rw [List.length_replicate]; omega)]
  have h1 : importInventoryBatches
      (fun i _ => if i = 0 then some "insert failed" else none)
      (List.replicate 400 (0 : Nat)) =
      (100, [List.replicate 300 0, List.replicate 100 0]) := by
    unfold importInventoryBatches
    rw [hch]
    decide
  refine ⟨by rw [h1]; rfl, by rw [h1], ?_⟩
  unfold inventoryImportMessage
  rw [h1]
  rfl

/-- C2 amended: the two importers behave differently. In the
spare-parts importer a batch whose write still fails after the one
recovery attempt halts the import: the failing chunk's error is
surfaced, every earlier chunk succeeded, and no later chunk is
submitted; with no failure all chunks are submitted. In the
inventory loop every chunk is always submitted regardless of failures, and
the reported count sums only the successful chunks' row counts (no
error is surfaced by a failing batch). -/
theorem claim_C2_amended
    (insert : Nat → Nat → List SPRow → Option String) (toInsert : List SPRow)
    {α : Type} (upsert : Nat → List α → Option String) (payloads : List α) :
    (∀ m, (doImportSparePartsBatches insert toInsert).1 = some m →
      ∃ j, j < (chunksOf 200 toInsert).length ∧
        (doImportSparePartsBatches insert toInsert).2 =
          (chunksOf 200 toInsert).take (j + 1) ∧
        (tryInsertWithMissingColumnRecovery (insert j)
          ((chunksOf 200 toInsert).getD j [])).1 = some m ∧
        ∀ l, l < j →
          (tryInsertWithMissingColumnRecovery (insert l)
            ((chunksOf 200 toInsert).getD l [])).1 = none) ∧
    ((doImportSparePartsBatches insert toInsert).1 = none →
      (doImportSparePartsBatches insert toInsert).2 =
        chunksOf 200 toInsert) ∧
    (importInventoryBatches upsert payloads).2 = chunksOf 300 payloads ∧
    (importInventoryBatches upsert payloads).1 =
      ((List.range (chunksOf 300 payloads).length).map (fun j =>
        if upsert j ((chunksOf 300 payloads).getD j []) = none then
          ((chunksOf 300 payloads).getD j []).length else 0)).sum := by
  obtain ⟨hnone, hsome⟩ :=
    sparePartsBatchLoop_spec insert (chunksOf 200 toInsert) 0
  obtain ⟨hsub, hcount⟩ :=
    inventoryBatchLoop_spec upsert (chunksOf 300 payloads) 0
  refine ⟨?_, hnone, hsub, by simpa using hcount⟩
  intro m hm
  obtain ⟨j, hj, htake, hfail, hearlier⟩ := hsome m hm
  exact ⟨j, hj, htake, by simpa using hfail,
    fun l hl => by simpa using hearlier l hl⟩

/-- Witness for C2 (amended) at a concrete input: a one-chunk
spare-parts import whose insert succeeds (all chunks submitted), and a
one-chunk inventory import whose upsert succeeds. -/
theorem claim_C2_amended_witness :
    (doImportSparePartsBatches (fun _ _ _ => none)
      [[("part_number", "P1")]]).2 =
      chunksOf 200 [[("part_number", "P1")]] ∧
    (importInventoryBatches (fun _ _ => none) [(0 : Nat)]).2 =
      chunksOf 300 [(0 : Nat)] := by
  have h := claim_C2_amended (fun _ _ _ => none) [[("part_number", "P1")]]
    (fun _ (_ : List Nat) => none) [0]
  have hch : chunksOf 200 [[("part_number", "P1")]] =
      [[[("part_number", "P1")]]] :=
    chunksOf_of_le 200 _ (by omega) (by simp) (by simp)
  have hyp : (doImportSparePartsBatches (fun _ _ _ => none)
      [[("part_number", "P1")]]).1 = none := by
    unfold doImportSparePartsBatches
    rw [hch]
    decide
  exact ⟨h.2.1 hyp, h.2.2.1⟩

/-! ### C6 -/

/-- C6: batches are submitted strictly in input order and sequentially.
The chunking partitions the payloads in order (`join` of the chunks is
the original list); the inventory importer's submission trace is
exactly the chunk list, in order; the spare-parts importer's submission
trace is a prefix (in order, no skipping, no reordering) of its chunk
list. Both loops are sequential recursions in which chunk `i + 1` is
only examined after the awaited result of chunk `i` (success,
recovered-success, or failure) is known, so no two batches of one run
are ever in flight concurrently. -/
theorem claim_C6 {α : Type} (upsert : Nat → List α → Option String)
    (payloads : List α)
    (insert : Nat → Nat → List SPRow → Option String)
    (toInsert : List SPRow) :
    (chunksOf 300 payloads).flatten = payloads ∧
    (chunksOf 200 toInsert).flatten = toInsert ∧
    (importInventoryBatches upsert payloads).2 = chunksOf 300 payloads ∧
    (∃ rest, (doImportSparePartsBatches insert toInsert).2 ++ rest =
      chunksOf 200 toInsert) := by
  refine ⟨join_chunksOf 300 (by omega) payloads,
    join_chunksOf 200 (by omega) toInsert,
    (inventoryBatchLoop_spec upsert (chunksOf 300 payloads) 0).1,
    sparePartsBatchLoop_submitted_isPre insert (chunksOf 200 toInsert) 0⟩

/-- C1 counterexample: staging incoming record `B` over staged record
`A` with the same uniqueness key does *not* retain `A`'s value for a
field that is null/undefined in `B`. `B.rackId` is present with value
`undefined`, yet the staged merge result holds `undefined`, not `A`'s
`"R1"` as the claim requires. -/
theorem claim_C1_counterexample :
    stagingKey stagedA = stagingKey incomingB ∧
    isNonNull (incomingB InvField.rackId) = false ∧
    stagedA InvField.rackId = some (JsVal.str "R1") ∧
    (amapGet (stageInventory [stagedA] [incomingB])
        (stagingKey incomingB)).map (fun r => r InvField.rackId) =
      some (some JsVal.undef) ∧
    (some (some JsVal.undef) : Option (Option JsVal)) ≠
      some (some (JsVal.str "R1")) := by
  refine ⟨by decide, by decide, by decide, ?_, by decide⟩
  decide

/-- C1 amended: when an incoming record `B` is staged over an existing
record `A` with the same uniqueness key, the staged result is the
spread `{ ...A, ...B }`: every non-null field of `B` overrides `A`, and
a field of `B` falls back to `A`'s value only when its *key is absent*
from `B`; a key present in `B` with value `undefined`/`null` also
overrides `A` (it does not fall back). -/
theorem claim_C1_amended (A B : JsObj) (h : stagingKey A = stagingKey B) :
    amapGet (stageInventory [A] [B]) (stagingKey B) =
      some (spreadMerge A B) ∧
    (∀ f, isNonNull (B f) = true → spreadMerge A B f = B f) ∧
    (∀ f, B f = none → spreadMerge A B f = A f) ∧
    (∀ f, B f ≠ none → spreadMerge A B f = B f) := by
  refine ⟨?_, ?_, ?_, ?_⟩
  · unfold stageInventory
    simp only [List.foldl]
    rw [show amapSet ([] : List (String × JsObj)) (stagingKey A) A =
      [(stagingKey A, A)] from rfl]
    rw [h]
    simp [amapGet, amapSet]
  · intro f hf
    cases hb : B f with
    | some v => simp [spreadMerge, hb]
    | none => rw [hb] at hf; simp [isNonNull] at hf
  · intro f hf
    simp [spreadMerge, hf]
  · intro f hf
    cases hb : B f with
    | some v => simp [spreadMerge, hb]
    | none => exact absurd hb hf

/-- Witness for C1 (amended) at the concrete records `stagedA`,
`incomingB`: the staged result is the spread, `B`'s non-null `qty`
wins, and `B`'s present-but-undefined `rackId` also wins. -/
theorem claim_C1_amended_witness :
    amapGet (stageInventory [stagedA] [incomingB]) (stagingKey incomingB) =
      some (spreadMerge stagedA incomingB) ∧
    spreadMerge stagedA incomingB InvField.qty = incomingB InvField.qty ∧
    spreadMerge stagedA incomingB InvField.rackId =
      incomingB InvField.rackId :=
  ⟨(claim_C1_amended stagedA incomingB (by decide)).1,
   (claim_C1_amended stagedA incomingB (by decide)).2.1 InvField.qty
     (by decide),
   (claim_C1_amended stagedA incomingB (by decide)).2.2.2 InvField.rackId
     (by decide)⟩

/-! ### C9 -/

/-- C9 counterexample. (1) Inventory page: a *blank* (present but
empty-string) `Item_ID` is not replaced by the synthesized placeholder
— `??` does not treat `''` as nullish, so the sku stays `""`.
(2) Upload API, inventory scope: a row with a missing sku is rejected
with a row error (excluded from the write) instead of receiving a
placeholder. Both contradict the claim. -/
theorem claim_C9_counterexample :
    resolveSku (uuidLike "t0" "r0")
      (normalizeRowKeys [("Item_ID", JsVal.str ""),
                         ("Item_Name", JsVal.str "Bolt")]) = "" ∧
    ("" : String) ≠ uuidLike "t0" "r0" ∧
    uploadPost Scope.inventory (fun _ => ⟨false, none⟩)
      [[("name", JsVal.str "Bolt"), ("warehouse_id", JsVal.str "W1")]] =
      ⟨0, 0, [(1, "Missing required fields: sku, name, warehouse_id")]⟩ := by
  refine ⟨by decide, by decide, by decide⟩

/-- C9 amended: the inventory page synthesizes the
`uuidLike` placeholder only when every identifier key (`item_id` /
`itemid` / `item id`) is absent or nullish; a present-but-blank
identifier is kept as the empty string (the row is still imported with
sku `""`); and the upload API's inventory scope instead rejects a row
with a falsy sku as a row error. -/
theorem claim_C9_amended (fresh : String) (norm : List (String × JsVal))
    (db : DbRowResp) (r : ApiRow) :
    ((isNullish (amapGet norm "item_id") = true ∧
      isNullish (amapGet norm "itemid") = true ∧
      isNullish (amapGet norm "item id") = true) →
      resolveSku fresh norm = fresh) ∧
    (amapGet norm "item_id" = some (JsVal.str "") →
      resolveSku fresh norm = "") ∧
    (fieldFalsy r "sku" = true →
      scopeStep Scope.inventory db r =
        RowOutcome.err "Missing required fields: sku, name, warehouse_id") := by
  refine ⟨?_, ?_, ?_⟩
  · rintro ⟨h1, h2, h3⟩
    simp [resolveSku, coalesce, h1, h2, h3]
  · intro h
    simp [resolveSku, coalesce, h, isNullish, jsValToString]
  · intro h
    simp [scopeStep, h]

/-- Witness for C9 (amended) at concrete inputs: a row with no
identifier column gets the placeholder; an API row with no sku is
rejected. -/
theorem claim_C9_amended_witness :
    resolveSku (uuidLike "t0" "r0")
      (normalizeRowKeys [("Category", JsVal.str "Tools")]) =
      uuidLike "t0" "r0" ∧
    scopeStep Scope.inventory ⟨false, none⟩ [("name", JsVal.str "Bolt")] =
      RowOutcome.err "Missing required fields: sku, name, warehouse_id" :=
  ⟨(claim_C9_amended (uuidLike "t0" "r0")
      (normalizeRowKeys [("Category", JsVal.str "Tools")])
      ⟨false, none⟩ []).1 (by decide),
   (claim_C9_amended (uuidLike "t0" "r0")
      (normalizeRowKeys [("Category", JsVal.str "Tools")])
      ⟨false, none⟩ [("name", JsVal.str "Bolt")]).2.2 (by decide)⟩

theorem filterMapCongr {α β : Type} (f g : α → Option β) (l : List α)
    (h : ∀ a ∈ l, f a = g a) : l.filterMap f = l.filterMap g := by
  induction l with
  | nil => rfl
  | cons a l ih =>
    rw [List.filterMap_cons, List.filterMap_cons, h a (List.mem_cons_self a l),
      ih (fun b hb => h b (List.mem_cons_of_mem a hb))]

theorem uploadLoop_total (step : Nat → ApiRow → RowOutcome) :
    ∀ (data : List ApiRow) (i : Nat),
      (uploadLoop step i data).inserted + (uploadLoop step i data).updated +
        (uploadLoop step i data).errors.length = data.length := by
  intro data
  induction data with
  | nil => intro i; rfl
  | cons r rest ih =>
    intro i
    have h := ih (i + 1)
    cases hs : step i r <;>
      simp only [uploadLoop, hs, List.length_cons, List.length_cons] <;>
      omega

theorem uploadLoop_spec (step : Nat → ApiRow → RowOutcome) :
    ∀ (data : List ApiRow) (i : Nat),
      (uploadLoop step i data).inserted =
        (List.range data.length).countP
          (fun j => isInsB (step (i + j) (data.getD j []))) ∧
      (uploadLoop step i data).updated =
        (List.range data.length).countP
          (fun j => isUpdB (step (i + j) (data.getD j []))) ∧
      (uploadLoop step i data).errors =
        (List.range data.length).filterMap
          (fun j => (errOf (step (i + j) (data.getD j []))).map
            (fun m => (i + j + 1, m))) := by
  intro data
  induction data with
  | nil => intro i; exact ⟨rfl, rfl, rfl⟩
  | cons r rest ih =>
    intro i
    obtain ⟨ih1, ih2, ih3⟩ := ih (i + 1)
    have hcntI :
        ((List.range rest.length).countP
          ((fun j => isInsB (step (i + j) ((r :: rest).getD j []))) ∘
            Nat.succ)) = (uploadLoop step (i + 1) rest).inserted := by
      rw [ih1]
      apply List.countP_congr
      intro j _
      simp only [Function.comp, Nat.succ_eq_add_one, List.getD_cons_succ]
      have h1 : i + (j + 1) = i + 1 + j := by omega
      rw [h1]
    have hcntU :
        ((List.range rest.length).countP
          ((fun j => isUpdB (step (i + j) ((r :: rest).getD j []))) ∘
            Nat.succ)) = (uploadLoop step (i + 1) rest).updated := by
      rw [ih2]
      apply List.countP_congr
      intro j _
      simp only [Function.comp, Nat.succ_eq_add_one, List.getD_cons_succ]
      have h1 : i + (j + 1) = i + 1 + j := by omega
      rw [h1]
    have herr :
        ((List.range rest.length).filterMap
          ((fun j => (errOf (step (i + j) ((r :: rest).getD j []))).map
            (fun m => (i + j + 1, m))) ∘ Nat.succ)) =
          (uploadLoop step (i + 1) rest).errors := by
      rw [ih3]
      apply filterMapCongr
      intro j _
      simp only [Function.comp, Nat.succ_eq_add_one, List.getD_cons_succ]
      have h1 : i + (j + 1) = i + 1 + j := by omega
      rw [h1]
    refine ⟨?_, ?_, ?_⟩
    · rw [List.length_cons, List.range_succ_eq_map, List.countP_cons,
        List.countP_map, hcntI]
      cases hs : step i r <;>
        simp [uploadLoop, hs, isInsB]
    · rw [List.length_cons, List.range_succ_eq_map, List.countP_cons,
        List.countP_map, hcntU]
      cases hs : step i r <;>
        simp [uploadLoop, hs, isUpdB]
    · rw [List.length_cons, List.range_succ_eq_map, List.filterMap_cons,
        List.filterMap_map, herr]
      cases hs : step i r <;>
        simp [uploadLoop, hs, errOf]

/-- C10: for every recognized scope, every input row contributes exactly
one of: one inserted increment, one updated increment, or exactly one
error entry carrying the row's 1-based index. Consequently
`inserted + updated + errors.length` equals the number of input rows,
the error list holds exactly the failing rows (1-based, in order), and
a failing row never stops the processing of the remaining rows — each
row's contribution depends only on that row and its own database
responses. -/
theorem claim_C10 (scope : Scope) (db : Nat → DbRowResp)
    (data : List ApiRow) :
    (uploadPost scope db data).inserted + (uploadPost scope db data).updated +
      (uploadPost scope db data).errors.length = data.length ∧
    (uploadPost scope db data).inserted =
      (List.range data.length).countP
        (fun j => isInsB (scopeStep scope (db j) (data.getD j []))) ∧
    (uploadPost scope db data).updated =
      (List.range data.length).countP
        (fun j => isUpdB (scopeStep scope (db j) (data.getD j []))) ∧
    (uploadPost scope db data).errors =
      (List.range data.length).filterMap
        (fun j => (errOf (scopeStep scope (db j) (data.getD j []))).map
          (fun m => (j + 1, m))) := by
  obtain ⟨h1, h2, h3⟩ :=
    uploadLoop_spec (fun i r => scopeStep scope (db i) r) data 0
  refine ⟨uploadLoop_total _ data 0, ?_, ?_, ?_⟩
  · rw [show uploadPost scope db data =
      uploadLoop (fun i r => scopeStep scope (db i) r) 0 data from rfl, h1]
    apply List.countP_congr
    intro j _
    rw [Nat.zero_add]
  · rw [show uploadPost scope db data =
      uploadLoop (fun i r => scopeStep scope (db i) r) 0 data from rfl, h2]
    apply List.countP_congr
    intro j _
    rw [Nat.zero_add]
  · rw [show uploadPost scope db data =
      uploadLoop (fun i r => scopeStep scope (db i) r) 0 data from rfl, h3]
    apply filterMapCongr
    intro j _
    rw [Nat.zero_add]

end WMS
